import Mathlib

/-!
Verification of the resilient cache/warming subsystem of the
Task-Management-API repository: the circuit breaker, the priority queue,
the two-tier (multi-level) cache and the unified cache manager.

Conventions of the shallow embedding:
* Go `time.Time` instants and `time.Duration` values are both modelled as
  integers (a count of nanoseconds); `time.Since(x)` evaluated at instant
  `now` is `now - x`.
* Go `int` counters and configuration fields are modelled as `Int`.
* A Go function `fn func() error` passed to the breaker is modelled by the
  boolean `fnFails` telling whether the call would return a non-nil error.
* Locks are dropped: every claim under proof is about the sequential
  behaviour of the operations, which in Go run with the receiver lock held.
-/

/-- States of the breaker, `CircuitBreakerState` in the source
(`CircuitBreakerClosed | CircuitBreakerOpen | CircuitBreakerHalfOpen`).
The Go name `Open` is a Lean keyword, hence `opened`. -/
inductive CircuitBreakerState where
  | closed
  | opened
  | halfOpen
deriving DecidableEq

/-- The `CircuitBreaker` struct: mutable state (`state`, `failureCount`,
`successCount`, `lastFailureTime`) plus its configuration
(`maxFailures`, `timeout`, `halfOpenMaxCalls`). -/
structure CircuitBreaker where
  state : CircuitBreakerState
  failureCount : Int
  successCount : Int
  lastFailureTime : Int
  maxFailures : Int
  timeout : Int
  halfOpenMaxCalls : Int
deriving DecidableEq

/-- The `CircuitBreakerConfig` struct. -/
structure CircuitBreakerConfig where
  MaxFailures : Int
  Timeout : Int
  HalfOpenMaxCalls : Int
deriving DecidableEq

/-- `NewCircuitBreaker`: initial state is `Closed`; the counters and
`lastFailureTime` are Go zero values.  (The `config == nil` default branch
is not modelled: the claims quantify over explicit configurations.) -/
def NewCircuitBreaker (config : CircuitBreakerConfig) : CircuitBreaker :=
  { state := .closed
    failureCount := 0
    successCount := 0
    lastFailureTime := 0
    maxFailures := config.MaxFailures
    timeout := config.Timeout
    halfOpenMaxCalls := config.HalfOpenMaxCalls }

/-- `shouldAttemptReset`: `time.Since(cb.lastFailureTime) >= cb.timeout`. -/
def CircuitBreaker.shouldAttemptReset (cb : CircuitBreaker) (now : Int) : Bool :=
  cb.timeout ≤ now - cb.lastFailureTime

/-- `allow`: `Closed` admits, `Open` admits once the timeout has elapsed,
`HalfOpen` admits while `successCount < halfOpenMaxCalls`. -/
def CircuitBreaker.allow (cb : CircuitBreaker) (now : Int) : Bool :=
  match cb.state with
  | .closed => true
  | .opened => cb.shouldAttemptReset now
  | .halfOpen => cb.successCount < cb.halfOpenMaxCalls

/-- `recordFailure`: increments `failureCount` and stamps
`lastFailureTime`; from `Closed` it trips to `Open` when
`failureCount >= maxFailures`; from `HalfOpen` it returns to `Open` and
clears `successCount`; the `Open` case falls through the switch. -/
def CircuitBreaker.recordFailure (cb : CircuitBreaker) (now : Int) : CircuitBreaker :=
  let cb1 := { cb with failureCount := cb.failureCount + 1, lastFailureTime := now }
  match cb1.state with
  | .closed =>
      if cb1.maxFailures ≤ cb1.failureCount then { cb1 with state := .opened } else cb1
  | .halfOpen => { cb1 with state := .opened, successCount := 0 }
  | .opened => cb1

/-- `recordSuccess`: in `Closed` it clears `failureCount`; in `HalfOpen`
it increments `successCount` and closes (clearing both counters) once
`successCount >= halfOpenMaxCalls`; in `Open`, if the timeout has elapsed,
it moves to `HalfOpen` with `successCount = 1`. -/
def CircuitBreaker.recordSuccess (cb : CircuitBreaker) (now : Int) : CircuitBreaker :=
  match cb.state with
  | .closed => { cb with failureCount := 0 }
  | .halfOpen =>
      let cb1 := { cb with successCount := cb.successCount + 1 }
      if cb1.halfOpenMaxCalls ≤ cb1.successCount then
        { cb1 with state := .closed, failureCount := 0, successCount := 0 }
      else cb1
  | .opened =>
      if cb.shouldAttemptReset now then
        { cb with state := .halfOpen, successCount := 1 }
      else cb

/-- Outcome of one `Execute` call: rejected by the breaker
(`ErrCircuitBreakerOpen`, the wrapped function is not invoked), admitted
with `fn` returning an error, or admitted with `fn` succeeding. -/
inductive ExecResult where
  | breakerOpen
  | fnError
  | ok
deriving DecidableEq

/-- `Execute(fn)`: admission check, then run `fn` and record the outcome.
When admission fails the breaker is returned untouched and `fn` is never
run (the Go code returns `ErrCircuitBreakerOpen` before calling `fn`). -/
def CircuitBreaker.Execute (cb : CircuitBreaker) (now : Int) (fnFails : Bool) :
    ExecResult × CircuitBreaker :=
  if cb.allow now = false then (.breakerOpen, cb)
  else if fnFails then (.fnError, cb.recordFailure now)
  else (.ok, cb.recordSuccess now)

/-- `n` consecutive `Execute` calls, all at instant `now` and all with the
same wrapped-function outcome; returns the list of results and the final
breaker. -/
def ExecuteN (now : Int) (fnFails : Bool) : Nat → CircuitBreaker → List ExecResult × CircuitBreaker
  | 0, cb => ([], cb)
  | n + 1, cb =>
      let step := cb.Execute now fnFails
      let rest := ExecuteN now fnFails n step.2
      (step.1 :: rest.1, rest.2)

lemma execute_fail_closed_stay (cb : CircuitBreaker) (now : Int)
    (hst : cb.state = .closed) (hlt : cb.failureCount + 1 < cb.maxFailures) :
    cb.Execute now true =
      (.fnError, { cb with failureCount := cb.failureCount + 1,
                           lastFailureTime := now }) := by
  simp [CircuitBreaker.Execute, CircuitBreaker.allow, CircuitBreaker.recordFailure, hst]
  omega

lemma execute_fail_closed_trip (cb : CircuitBreaker) (now : Int)
    (hst : cb.state = .closed) (hge : cb.maxFailures ≤ cb.failureCount + 1) :
    cb.Execute now true =
      (.fnError, { cb with state := .opened,
                           failureCount := cb.failureCount + 1,
                           lastFailureTime := now }) := by
  simp [CircuitBreaker.Execute, CircuitBreaker.allow, CircuitBreaker.recordFailure, hst]
  omega

lemma executeN_fail_opens (now : Int) :
    ∀ (k : Nat) (cb : CircuitBreaker), cb.state = .closed →
      cb.failureCount + (k : Int) = cb.maxFailures → 1 ≤ k →
      (ExecuteN now true k cb).2 =
        { cb with state := .opened,
                  failureCount := cb.maxFailures,
                  lastFailureTime := now } := by
  intro k
  induction k with
  | zero => intro cb _ _ h3; exact absurd h3 (by omega)
  | succ j ih =>
      intro cb hst hcnt _
      rcases Nat.eq_zero_or_pos j with hj | hj
      · subst hj
        simp [ExecuteN, execute_fail_closed_trip cb now hst (by push_cast at hcnt; omega)]
        push_cast at hcnt; omega
      · have hstep := execute_fail_closed_stay cb now hst (by push_cast at hcnt; omega)
        simp only [ExecuteN, hstep]
        exact ih _ (by simp [hst]) (by simp; push_cast at hcnt; omega) hj

lemma execute_ok_halfOpen_step (cb : CircuitBreaker) (now : Int)
    (hst : cb.state = .halfOpen) (hlt : cb.successCount + 1 < cb.halfOpenMaxCalls) :
    cb.Execute now false = (.ok, { cb with successCount := cb.successCount + 1 }) := by
  have h1 : cb.successCount < cb.halfOpenMaxCalls := by omega
  have h2 : ¬ (cb.halfOpenMaxCalls ≤ cb.successCount + 1) := by omega
  simp [CircuitBreaker.Execute, CircuitBreaker.allow, CircuitBreaker.recordSuccess, hst, h1, h2]

lemma execute_ok_halfOpen_close (cb : CircuitBreaker) (now : Int)
    (hst : cb.state = .halfOpen) (hlt : cb.successCount < cb.halfOpenMaxCalls)
    (hge : cb.halfOpenMaxCalls ≤ cb.successCount + 1) :
    cb.Execute now false =
      (.ok, { cb with state := .closed, failureCount := 0, successCount := 0 }) := by
  simp [CircuitBreaker.Execute, CircuitBreaker.allow, CircuitBreaker.recordSuccess, hst, hlt, hge]

lemma execute_ok_halfOpen_denied (cb : CircuitBreaker) (now : Int)
    (hst : cb.state = .halfOpen) (hge : cb.halfOpenMaxCalls ≤ cb.successCount) :
    cb.Execute now false = (.breakerOpen, cb) := by
  have h1 : ¬ (cb.successCount < cb.halfOpenMaxCalls) := by omega
  simp [CircuitBreaker.Execute, CircuitBreaker.allow, hst, h1]

lemma executeN_ok_closed_fix (now : Int) :
    ∀ (n : Nat) (cb : CircuitBreaker), cb.state = .closed → cb.failureCount = 0 →
      ExecuteN now false n cb = (List.replicate n .ok, cb) := by
  intro n
  induction n with
  | zero => intro cb _ _; rfl
  | succ j ih =>
      intro cb hst hfc
      have hstep : cb.Execute now false = (.ok, cb) := by
        simp [CircuitBreaker.Execute, CircuitBreaker.allow, CircuitBreaker.recordSuccess, hst]
        rw [← hst, ← hfc]
      simp [ExecuteN, hstep, ih cb hst hfc, List.replicate_succ]

lemma executeN_ok_halfOpen_closes (now : Int) :
    ∀ (n : Nat) (cb : CircuitBreaker), cb.state = .halfOpen →
      cb.successCount < cb.halfOpenMaxCalls →
      cb.halfOpenMaxCalls ≤ cb.successCount + (n : Int) →
      ExecuteN now false n cb =
        (List.replicate n .ok,
         { cb with state := .closed, failureCount := 0, successCount := 0 }) := by
  intro n
  induction n with
  | zero =>
      intro cb _ h1 h2
      exact absurd h2 (by push_cast; omega)
  | succ j ih =>
      intro cb hst hlt hle
      rcases le_or_lt cb.halfOpenMaxCalls (cb.successCount + 1) with hcl | hcl
      · have hstep := execute_ok_halfOpen_close cb now hst hlt hcl
        simp only [ExecuteN, hstep]
        have hfix := executeN_ok_closed_fix now j
          { cb with state := .closed, failureCount := 0, successCount := 0 } (by simp) (by simp)
        simp [hfix, List.replicate_succ]
      · have hstep := execute_ok_halfOpen_step cb now hst hcl
        simp only [ExecuteN, hstep]
        have hrec := ih { cb with successCount := cb.successCount + 1 } (by simp [hst])
          (by simp; omega) (by simp; push_cast at hle ⊢; omega)
        simp [hrec, List.replicate_succ]

lemma execute_ok_opened_elapsed (cb : CircuitBreaker) (now : Int)
    (hst : cb.state = .opened) (helaps : cb.timeout ≤ now - cb.lastFailureTime) :
    cb.Execute now false = (.ok, { cb with state := .halfOpen, successCount := 1 }) := by
  simp [CircuitBreaker.Execute, CircuitBreaker.allow, CircuitBreaker.shouldAttemptReset,
        CircuitBreaker.recordSuccess, hst, helaps]

lemma execute_fail_opened_elapsed (cb : CircuitBreaker) (now : Int)
    (hst : cb.state = .opened) (helaps : cb.timeout ≤ now - cb.lastFailureTime) :
    cb.Execute now true =
      (.fnError, { cb with failureCount := cb.failureCount + 1, lastFailureTime := now }) := by
  simp [CircuitBreaker.Execute, CircuitBreaker.allow, CircuitBreaker.shouldAttemptReset,
        CircuitBreaker.recordFailure, hst, helaps]

lemma execute_denied_opened (cb : CircuitBreaker) (now : Int) (fnFails : Bool)
    (hst : cb.state = .opened) (hlt : now - cb.lastFailureTime < cb.timeout) :
    cb.Execute now fnFails = (.breakerOpen, cb) := by
  have hal : cb.allow now = false := by
    simp [CircuitBreaker.allow, CircuitBreaker.shouldAttemptReset, hst]
    omega
  simp [CircuitBreaker.Execute, hal]

lemma execute_fail_halfOpen (cb : CircuitBreaker) (now : Int)
    (hst : cb.state = .halfOpen) (hadm : cb.successCount < cb.halfOpenMaxCalls) :
    cb.Execute now true =
      (.fnError, { cb with state := .opened, failureCount := cb.failureCount + 1,
                           successCount := 0, lastFailureTime := now }) := by
  simp [CircuitBreaker.Execute, CircuitBreaker.allow, CircuitBreaker.recordFailure, hst, hadm]

theorem claim_C1 (cfg : CircuitBreakerConfig) (n m : Nat) (t tNext : Int)
    (cb1 cb2 : CircuitBreaker)
    (hn : (n : Int) = cfg.MaxFailures) (hn1 : 1 ≤ n)
    (hm : (m : Int) = cfg.HalfOpenMaxCalls) (hm1 : 1 ≤ m)
    (ht : cfg.Timeout ≤ tNext - t)
    (hcb1 : cb1 = (ExecuteN t true n (NewCircuitBreaker cfg)).2)
    (hcb2 : cb2 = (cb1.Execute tNext false).2) :
    cb1.state = .opened
    ∧ (cb1.Execute tNext false).1 = .ok
    ∧ cb2.state = .halfOpen ∧ cb2.successCount = 1
    ∧ (∀ t2 : Int, (∀ r ∈ (ExecuteN t2 false m cb2).1, r = ExecResult.ok) →
        (ExecuteN t2 false m cb2).2.state = .closed
        ∧ (ExecuteN t2 false m cb2).2.failureCount = 0
        ∧ (ExecuteN t2 false m cb2).2.successCount = 0)
    ∧ (∀ t3 : Int, cb2.successCount < cb2.halfOpenMaxCalls →
        (cb2.Execute t3 true).1 = .fnError
        ∧ (cb2.Execute t3 true).2.state = .opened
        ∧ (cb2.Execute t3 true).2.successCount = 0) := by
  have h1 := executeN_fail_opens t n (NewCircuitBreaker cfg) rfl
    (by simp [NewCircuitBreaker]; omega) hn1
  rw [h1] at hcb1
  have hstep := execute_ok_opened_elapsed cb1 tNext (by rw [hcb1]) (by rw [hcb1]; simpa using ht)
  rw [hstep] at hcb2
  refine ⟨by rw [hcb1], by rw [hstep], by simp [hcb2], by simp [hcb2], ?_, ?_⟩
  · intro t2 hall
    have hsc : cb2.successCount = 1 := by simp [hcb2]
    have hhm : cb2.halfOpenMaxCalls = cfg.HalfOpenMaxCalls := by
      simp [hcb2, hcb1, NewCircuitBreaker]
    have hstH : cb2.state = .halfOpen := by simp [hcb2]
    rcases lt_or_le (1 : Int) cfg.HalfOpenMaxCalls with hgt | hle
    · have := executeN_ok_halfOpen_closes t2 m cb2 hstH (by omega) (by omega)
      rw [this]
      exact ⟨rfl, rfl, rfl⟩
    · obtain ⟨j, rfl⟩ : ∃ j, m = j + 1 := ⟨m - 1, by omega⟩
      have hdenied := execute_ok_halfOpen_denied cb2 t2 hstH (by omega)
      have : (ExecuteN t2 false (j + 1) cb2).1 = .breakerOpen :: (ExecuteN t2 false j cb2).1 := by
        simp [ExecuteN, hdenied]
      rw [this] at hall
      have := hall .breakerOpen (by simp)
      exact absurd this (by simp)
  · intro t3 hadm
    have hstH : cb2.state = .halfOpen := by rw [hcb2]
    have h := execute_fail_halfOpen cb2 t3 hstH hadm
    rw [h]
    exact ⟨rfl, rfl, rfl⟩

theorem claim_C1_witness :
    (((2 : Nat) : Int) = (CircuitBreakerConfig.mk 2 10 3).MaxFailures)
    ∧ (1 ≤ (2 : Nat))
    ∧ (((3 : Nat) : Int) = (CircuitBreakerConfig.mk 2 10 3).HalfOpenMaxCalls)
    ∧ (1 ≤ (3 : Nat))
    ∧ ((CircuitBreakerConfig.mk 2 10 3).Timeout ≤ 10 - 0)
    ∧ ((ExecuteN 0 true 2 (NewCircuitBreaker (CircuitBreakerConfig.mk 2 10 3))).2.state = .opened
      ∧ ((ExecuteN 0 true 2 (NewCircuitBreaker (CircuitBreakerConfig.mk 2 10 3))).2.Execute 10 false).1 = .ok
      ∧ ((ExecuteN 0 true 2 (NewCircuitBreaker (CircuitBreakerConfig.mk 2 10 3))).2.Execute 10 false).2.state = .halfOpen
      ∧ ((ExecuteN 0 true 2 (NewCircuitBreaker (CircuitBreakerConfig.mk 2 10 3))).2.Execute 10 false).2.successCount = 1
      ∧ (∀ t2 : Int, (∀ r ∈ (ExecuteN t2 false 3 ((ExecuteN 0 true 2 (NewCircuitBreaker (CircuitBreakerConfig.mk 2 10 3))).2.Execute 10 false).2).1, r = ExecResult.ok) →
          (ExecuteN t2 false 3 ((ExecuteN 0 true 2 (NewCircuitBreaker (CircuitBreakerConfig.mk 2 10 3))).2.Execute 10 false).2).2.state = .closed
          ∧ (ExecuteN t2 false 3 ((ExecuteN 0 true 2 (NewCircuitBreaker (CircuitBreakerConfig.mk 2 10 3))).2.Execute 10 false).2).2.failureCount = 0
          ∧ (ExecuteN t2 false 3 ((ExecuteN 0 true 2 (NewCircuitBreaker (CircuitBreakerConfig.mk 2 10 3))).2.Execute 10 false).2).2.successCount = 0)
      ∧ (∀ t3 : Int,
          ((ExecuteN 0 true 2 (NewCircuitBreaker (CircuitBreakerConfig.mk 2 10 3))).2.Execute 10 false).2.successCount
            < ((ExecuteN 0 true 2 (NewCircuitBreaker (CircuitBreakerConfig.mk 2 10 3))).2.Execute 10 false).2.halfOpenMaxCalls →
          (((ExecuteN 0 true 2 (NewCircuitBreaker (CircuitBreakerConfig.mk 2 10 3))).2.Execute 10 false).2.Execute t3 true).1 = .fnError
          ∧ (((ExecuteN 0 true 2 (NewCircuitBreaker (CircuitBreakerConfig.mk 2 10 3))).2.Execute 10 false).2.Execute t3 true).2.state = .opened
          ∧ (((ExecuteN 0 true 2 (NewCircuitBreaker (CircuitBreakerConfig.mk 2 10 3))).2.Execute 10 false).2.Execute t3 true).2.successCount = 0)) :=
  ⟨by decide, by decide, by decide, by decide, by decide,
   claim_C1 (CircuitBreakerConfig.mk 2 10 3) 2 3 0 10 _ _
     (by decide) (by decide) (by decide) (by decide) (by decide) rfl rfl⟩

theorem claim_C2 (cb : CircuitBreaker) (now : Int) (fnFails : Bool)
    (hst : cb.state = .opened) (hlt : now - cb.lastFailureTime < cb.timeout) :
    cb.Execute now fnFails = (.breakerOpen, cb)
    ∧ (∀ cbB : CircuitBreaker, cbB = ((NewCircuitBreaker ⟨1, 50, 3⟩).Execute 0 true).2 →
        cbB.state = .opened
        ∧ (cbB.Execute 10 true).1 = .breakerOpen ∧ (cbB.Execute 10 false).1 = .breakerOpen
        ∧ (cbB.Execute 10 true).2 = cbB ∧ (cbB.Execute 10 false).2 = cbB
        ∧ (cbB.Execute 60 false).1 = .ok ∧ (cbB.Execute 60 true).1 = .fnError) := by
  constructor
  · exact execute_denied_opened cb now fnFails hst hlt
  · intro cbB hB
    subst hB
    decide

theorem claim_C2_witness :
    ((CircuitBreaker.mk .opened 1 0 0 1 50 3).state = .opened)
    ∧ (10 - (CircuitBreaker.mk .opened 1 0 0 1 50 3).lastFailureTime
        < (CircuitBreaker.mk .opened 1 0 0 1 50 3).timeout)
    ∧ ((CircuitBreaker.mk .opened 1 0 0 1 50 3).Execute 10 true
        = (.breakerOpen, CircuitBreaker.mk .opened 1 0 0 1 50 3)
      ∧ (∀ cbB : CircuitBreaker, cbB = ((NewCircuitBreaker ⟨1, 50, 3⟩).Execute 0 true).2 →
          cbB.state = .opened
          ∧ (cbB.Execute 10 true).1 = .breakerOpen ∧ (cbB.Execute 10 false).1 = .breakerOpen
          ∧ (cbB.Execute 10 true).2 = cbB ∧ (cbB.Execute 10 false).2 = cbB
          ∧ (cbB.Execute 60 false).1 = .ok ∧ (cbB.Execute 60 true).1 = .fnError)) :=
  ⟨by decide, by decide,
   claim_C2 (CircuitBreaker.mk .opened 1 0 0 1 50 3) 10 true (by decide) (by decide)⟩

theorem claim_C9 (cb : CircuitBreaker) (now : Int)
    (hst : cb.state = .opened) (helaps : cb.timeout ≤ now - cb.lastFailureTime) :
    ((cb.Execute now true).1 = .fnError
     ∧ (cb.Execute now true).2.state = .opened
     ∧ (cb.Execute now true).2.lastFailureTime = now
     ∧ (∀ now2 : Int, ∀ fnFails : Bool, now2 - now < cb.timeout →
         (cb.Execute now true).2.Execute now2 fnFails = (.breakerOpen, (cb.Execute now true).2)))
    ∧ (∀ cb2 : CircuitBreaker, ∀ now2 : Int, ∀ fnFails : Bool,
        cb2.state ≠ .halfOpen → (cb2.Execute now2 fnFails).2.state = .halfOpen →
        (cb2.Execute now2 fnFails).1 = .ok ∧ fnFails = false) := by
  have h := execute_fail_opened_elapsed cb now hst helaps
  constructor
  · rw [h]
    refine ⟨rfl, hst, rfl, ?_⟩
    intro now2 fnFails hlt2
    exact execute_denied_opened _ now2 fnFails hst (by simpa using hlt2)
  · intro cb2 now2 fnFails hne hhalf
    rcases cb2 with ⟨st, fc, sc, lf, mf, tm, hm⟩
    cases st <;> cases fnFails <;>
      simp_all [CircuitBreaker.Execute, CircuitBreaker.allow, CircuitBreaker.recordFailure,
                CircuitBreaker.recordSuccess, CircuitBreaker.shouldAttemptReset] <;>
      (split_ifs at * <;> simp_all)

theorem claim_C9_witness :
    ((CircuitBreaker.mk .opened 1 0 0 1 50 3).state = .opened)
    ∧ ((CircuitBreaker.mk .opened 1 0 0 1 50 3).timeout
        ≤ 60 - (CircuitBreaker.mk .opened 1 0 0 1 50 3).lastFailureTime)
    ∧ ((((CircuitBreaker.mk .opened 1 0 0 1 50 3).Execute 60 true).1 = .fnError
       ∧ ((CircuitBreaker.mk .opened 1 0 0 1 50 3).Execute 60 true).2.state = .opened
       ∧ ((CircuitBreaker.mk .opened 1 0 0 1 50 3).Execute 60 true).2.lastFailureTime = 60
       ∧ (∀ now2 : Int, ∀ fnFails : Bool,
           now2 - 60 < (CircuitBreaker.mk .opened 1 0 0 1 50 3).timeout →
           ((CircuitBreaker.mk .opened 1 0 0 1 50 3).Execute 60 true).2.Execute now2 fnFails
             = (.breakerOpen, ((CircuitBreaker.mk .opened 1 0 0 1 50 3).Execute 60 true).2)))
      ∧ (∀ cb2 : CircuitBreaker, ∀ now2 : Int, ∀ fnFails : Bool,
          cb2.state ≠ .halfOpen → (cb2.Execute now2 fnFails).2.state = .halfOpen →
          (cb2.Execute now2 fnFails).1 = .ok ∧ fnFails = false)) :=
  ⟨by decide, by decide,
   claim_C9 (CircuitBreaker.mk .opened 1 0 0 1 50 3) 60 (by decide) (by decide)⟩

/-- The `WarmupJob` struct; the `Data interface{}` payload is modelled as
an opaque string (the queue never inspects it). `TTL` is a duration in
nanoseconds. -/
structure WarmupJob where
  Key : String
  Data : String
  TTL : Int
  Priority : Int
deriving DecidableEq, Inhabited

/-- The `JobQueue` heap entry: the job plus the copy of its priority that
`PriorityQueue.Push` takes (`Priority: job.Priority`).  The Go `Index`
field is maintained by `Swap`/`Push`/`Pop` solely so that
`container/heap`'s `Fix`/`Remove` could be used; this repository never
reads it, so the embedding omits it. -/
structure JobQueue where
  Job : WarmupJob
  Priority : Int
deriving DecidableEq, Inhabited

/-- Element read `pq[i]`; every use below is in bounds, the default is
never produced. -/
def nthJQ (l : List JobQueue) (i : Nat) : JobQueue := (l[i]?).getD default

/-- `PriorityQueueHeap.Less(i, j)`: `pq[i].Priority > pq[j].Priority`
(max-heap order). -/
def jqLess (l : List JobQueue) (i j : Nat) : Bool :=
  (nthJQ l j).Priority < (nthJQ l i).Priority

/-- `PriorityQueueHeap.Swap(i, j)` (the `Index` bookkeeping is omitted,
see `JobQueue`). -/
def jqSwap (l : List JobQueue) (i j : Nat) : List JobQueue :=
  (l.set i (nthJQ l j)).set j (nthJQ l i)

/-- `container/heap`'s `up` (sift-up) specialised to this `Less`/`Swap`:
while position `j` beats its parent `i = (j-1)/2`, swap them and continue
from `i`.  In Go the loop breaks when `i == j`, which happens exactly at
the root (`(0-1)/2 == 0` with truncating integer division, matching `Nat`
subtraction here). -/
def heapUp (l : List JobQueue) (j : Nat) : List JobQueue :=
  if h : (j - 1) / 2 = j then l
  else if jqLess l j ((j - 1) / 2) then heapUp (jqSwap l ((j - 1) / 2) j) ((j - 1) / 2)
  else l
termination_by j
decreasing_by
  omega

/-- `container/heap`'s `down` (sift-down) on the prefix `[0, n)`: pick
the child `j` of `i` with the larger priority, swap while it beats `i`.
Go's `j` selection between the two children is inlined into the two
branches; the Go overflow guard `j1 < 0` cannot fire for `Nat` indices. -/
def heapDown (l : List JobQueue) (i n : Nat) : List JobQueue :=
  if h1 : n ≤ 2 * i + 1 then l
  else if h2 : 2 * i + 2 < n ∧ jqLess l (2 * i + 2) (2 * i + 1) = true then
    (if jqLess l (2 * i + 2) i then heapDown (jqSwap l i (2 * i + 2)) (2 * i + 2) n else l)
  else
    (if jqLess l (2 * i + 1) i then heapDown (jqSwap l i (2 * i + 1)) (2 * i + 1) n else l)
termination_by n - i
decreasing_by
  · omega
  · omega

/-- `heap.Push`: `h.Push(x)` appends, then `up(h, h.Len()-1)`. -/
def heapPushGo (l : List JobQueue) (x : JobQueue) : List JobQueue :=
  heapUp (l ++ [x]) l.length

/-- `heap.Pop`: `n := h.Len()-1; h.Swap(0, n); down(h, 0, n)`; then
`h.Pop()` removes and returns the (former root) last element. -/
def heapPopGo (l : List JobQueue) : JobQueue × List JobQueue :=
  let n := l.length - 1
  let l2 := heapDown (jqSwap l 0 n) 0 n
  (nthJQ l2 n, l2.dropLast)

/-- The `PriorityQueue` struct (its lock is dropped, see the header). -/
structure PriorityQueue where
  items : List JobQueue
deriving DecidableEq

/-- `NewPriorityQueue`: empty item slice (`heap.Init` on it is a no-op). -/
def NewPriorityQueue : PriorityQueue := ⟨[]⟩

/-- `PriorityQueue.Push`: wraps the job in a `JobQueue` entry carrying
`Priority: job.Priority` and pushes it on the heap. -/
def PriorityQueue.Push (pq : PriorityQueue) (job : WarmupJob) : PriorityQueue :=
  ⟨heapPushGo pq.items { Job := job, Priority := job.Priority }⟩

/-- `PriorityQueue.Pop`: on an empty queue Go returns
`(WarmupJob{}, false)`, modelled as `none`; otherwise `heap.Pop`'s item's
`Job` with `true`, modelled as `some`. -/
def PriorityQueue.Pop (pq : PriorityQueue) : Option WarmupJob × PriorityQueue :=
  if pq.items.length = 0 then (none, pq)
  else
    let r := heapPopGo pq.items
    (some r.1.Job, ⟨r.2⟩)

/-- A sequence of `Push` calls, one per job. -/
def pushAllJobs (jobs : List WarmupJob) (pq : PriorityQueue) : PriorityQueue :=
  jobs.foldl PriorityQueue.Push pq

/-- Repeated `Pop`: collects the returned jobs until the fuel runs out or
the queue reports empty. -/
def popAllJobs : Nat → PriorityQueue → List WarmupJob
  | 0, _ => []
  | fuel + 1, pq =>
      match pq.Pop with
      | (none, _) => []
      | (some job, pq2) => job :: popAllJobs fuel pq2


lemma length_jqSwap (l : List JobQueue) (i j : Nat) : (jqSwap l i j).length = l.length := by
  simp [jqSwap]

lemma nthJQ_set_self (l : List JobQueue) (i : Nat) (a : JobQueue) (h : i < l.length) :
    nthJQ (l.set i a) i = a := by
  simp [nthJQ, List.getElem?_set_self', List.getElem?_eq_getElem h]

lemma nthJQ_set_ne (l : List JobQueue) (i k : Nat) (a : JobQueue) (h : i ≠ k) :
    nthJQ (l.set i a) k = nthJQ l k := by
  simp [nthJQ, List.getElem?_set_ne h]

lemma nthJQ_swap_j (l : List JobQueue) (i j : Nat) (hj : j < l.length) :
    nthJQ (jqSwap l i j) j = nthJQ l i := by
  rw [jqSwap, nthJQ_set_self (l.set i (nthJQ l j)) j (nthJQ l i) (by simpa using hj)]

lemma nthJQ_swap_i (l : List JobQueue) (i j : Nat) (hi : i < l.length) (hne : i ≠ j) :
    nthJQ (jqSwap l i j) i = nthJQ l j := by
  rw [jqSwap, nthJQ_set_ne _ _ _ _ (Ne.symm hne), nthJQ_set_self _ _ _ hi]

lemma nthJQ_swap_other (l : List JobQueue) (i j k : Nat) (h1 : k ≠ i) (h2 : k ≠ j) :
    nthJQ (jqSwap l i j) k = nthJQ l k := by
  rw [jqSwap, nthJQ_set_ne _ _ _ _ (Ne.symm h2), nthJQ_set_ne _ _ _ _ (Ne.symm h1)]

lemma jqSwap_perm (l : List JobQueue) (i j : Nat) (hi : i < l.length) (hj : j < l.length) :
    (jqSwap l i j).Perm l := by
  rw [List.perm_iff_count]
  intro a
  have hj2 : j < (l.set i (nthJQ l j)).length := by simpa using hj
  have hset : (l.set i (nthJQ l j))[j] = nthJQ l j := by
    rcases eq_or_ne i j with rfl | hne
    · simp [List.getElem_set_self, nthJQ, List.getElem?_eq_getElem hj]
    · simp [List.getElem_set_ne hne, nthJQ, List.getElem?_eq_getElem hj]
  have hli : l[i] = nthJQ l i := by simp [nthJQ, List.getElem?_eq_getElem hi]
  have c1 := List.count_set (nthJQ l j) a l i hi
  have c2 := List.count_set (nthJQ l i) a (l.set i (nthJQ l j)) j hj2
  rw [hset] at c2
  rw [hli] at c1
  have hcnt_i : (nthJQ l i == a) = true → 1 ≤ List.count a l := by
    intro hb
    have hmem : l[i] ∈ l := List.getElem_mem hi
    rw [hli, eq_of_beq hb] at hmem
    simpa [List.count_pos_iff] using hmem
  rw [jqSwap, c2, c1]
  split_ifs with e1 e2 <;> (try have h1 := hcnt_i e1) <;> omega

def heapOrderedN (n : Nat) (l : List JobQueue) : Prop :=
  ∀ i c : Nat, c < n → (c = 2 * i + 1 ∨ c = 2 * i + 2) →
    (nthJQ l c).Priority ≤ (nthJQ l i).Priority

def heapOrdered (l : List JobQueue) : Prop := heapOrderedN l.length l

def upInv (l : List JobQueue) (j : Nat) : Prop :=
  (∀ i c : Nat, c < l.length → (c = 2 * i + 1 ∨ c = 2 * i + 2) → c ≠ j →
    (nthJQ l c).Priority ≤ (nthJQ l i).Priority)
  ∧ (∀ c : Nat, c < l.length → (c = 2 * j + 1 ∨ c = 2 * j + 2) →
    (nthJQ l c).Priority ≤ (nthJQ l ((j - 1) / 2)).Priority)

lemma heapUp_perm : ∀ (l : List JobQueue) (j : Nat), j < l.length → (heapUp l j).Perm l := by
  intro l j
  induction l, j using heapUp.induct with
  | case1 l j h =>
      intro _
      rw [heapUp]
      simp [h]
  | case2 l j h hless ih =>
      intro hj
      rw [heapUp]
      simp only [dif_neg h, if_pos hless]
      have hp : (j - 1) / 2 < l.length := by omega
      have hlen : (jqSwap l ((j - 1) / 2) j).length = l.length := length_jqSwap l _ j
      exact (ih (by omega)).trans (jqSwap_perm l _ j hp hj)
  | case3 l j h hless =>
      intro _
      rw [heapUp]
      simp [h, hless]

lemma heapUp_ordered : ∀ (l : List JobQueue) (j : Nat), j < l.length → upInv l j →
    heapOrdered (heapUp l j) := by
  intro l j
  induction l, j using heapUp.induct with
  | case1 l j h =>
      intro hj hinv
      have hj0 : j = 0 := by omega
      rw [heapUp]
      simp only [dif_pos h]
      intro i c hc hchild
      exact hinv.1 i c hc hchild (by omega)
  | case2 l j h hless ih =>
      intro hj hinv
      have hj1 : 1 ≤ j := by omega
      rw [heapUp]
      simp only [dif_neg h, if_pos hless]
      rcases hinv with ⟨hinv1, hinv2⟩
      revert h hless ih hinv2
      generalize hpd : (j - 1) / 2 = p
      intro h hless ih hinv2
      have hpj : p < j := by omega
      have hp : p < l.length := by omega
      have hlen : (jqSwap l p j).length = l.length := length_jqSwap l p j
      have hvj : nthJQ (jqSwap l p j) j = nthJQ l p := nthJQ_swap_j l p j hj
      have hvp : nthJQ (jqSwap l p j) p = nthJQ l j := nthJQ_swap_i l p j hp (by omega)
      have hvo : ∀ k, k ≠ p → k ≠ j → nthJQ (jqSwap l p j) k = nthJQ l k :=
        fun k h1 h2 => nthJQ_swap_other l p j k h1 h2
      have hwu : (nthJQ l p).Priority < (nthJQ l j).Priority := by
        simpa [jqLess] using hless
      apply ih (by omega)
      constructor
      · intro a c hc hchild hcp
        rw [hlen] at hc
        by_cases hcj : c = j
        · subst hcj
          have ha : a = p := by omega
          subst ha
          rw [hvj, hvp]
          exact le_of_lt hwu
        · rw [hvo c hcp hcj]
          by_cases hap : a = p
          · rw [hap] at hchild ⊢
            rw [hvp]
            exact le_trans (hinv1 p c hc hchild hcj) (le_of_lt hwu)
          · by_cases haj : a = j
            · subst haj
              rw [hvj]
              exact hinv2 c hc hchild
            · rw [hvo a hap haj]
              exact hinv1 a c hc hchild hcj
      · intro c hc hchild
        rw [hlen] at hc
        have hcp : c ≠ p := by omega
        by_cases hp0 : p = 0
        · subst hp0
          have h00 : ((0 - 1) / 2 : Nat) = 0 := rfl
          rw [h00]
          by_cases hcj : c = j
          · subst hcj
            rw [hvj, hvp]
            exact le_of_lt hwu
          · rw [hvo c hcp hcj, hvp]
            exact le_trans (hinv1 0 c hc hchild hcj) (le_of_lt hwu)
        · have hgpp : (p - 1) / 2 ≠ p := by omega
          have hgpj : (p - 1) / 2 ≠ j := by omega
          rw [hvo _ hgpp hgpj]
          have hpchild : p = 2 * ((p - 1) / 2) + 1 ∨ p = 2 * ((p - 1) / 2) + 2 := by omega
          have hple : (nthJQ l p).Priority ≤ (nthJQ l ((p - 1) / 2)).Priority :=
            hinv1 _ p (by omega) hpchild (by omega)
          by_cases hcj : c = j
          · subst hcj
            rw [hvj]
            exact hple
          · rw [hvo c hcp hcj]
            exact le_trans (hinv1 p c hc hchild hcj) hple
  | case3 l j h hless =>
      intro hj hinv
      rw [heapUp]
      simp only [dif_neg h, if_neg hless]
      intro i c hc hchild
      by_cases hcj : c = j
      · subst hcj
        have hi : i = (c - 1) / 2 := by omega
        subst hi
        have hnb : ¬ ((nthJQ l ((c - 1) / 2)).Priority < (nthJQ l c).Priority) := by
          simpa [jqLess] using hless
        omega
      · exact hinv.1 i c hc hchild hcj

lemma nthJQ_append_lt (l : List JobQueue) (x : JobQueue) (c : Nat) (h : c < l.length) :
    nthJQ (l ++ [x]) c = nthJQ l c := by
  simp [nthJQ, List.getElem?_append, h]

lemma heapPush_perm (l : List JobQueue) (x : JobQueue) :
    (heapPushGo l x).Perm (l ++ [x]) := by
  have : l.length < (l ++ [x]).length := by simp
  exact heapUp_perm (l ++ [x]) l.length this

lemma heapPush_ordered (l : List JobQueue) (x : JobQueue) (hord : heapOrdered l) :
    heapOrdered (heapPushGo l x) := by
  apply heapUp_ordered (l ++ [x]) l.length (by simp)
  constructor
  · intro i c hc hchild hcj
    simp only [List.length_append, List.length_cons, List.length_nil] at hc
    have hcl : c < l.length := by omega
    have hil : i < l.length := by omega
    rw [nthJQ_append_lt l x c hcl, nthJQ_append_lt l x i hil]
    exact hord i c hcl hchild
  · intro c hc hchild
    simp only [List.length_append, List.length_cons, List.length_nil] at hc
    omega

lemma heapDown_perm : ∀ (l : List JobQueue) (i n : Nat), n ≤ l.length →
    (heapDown l i n).Perm l := by
  intro l i n
  induction l, i, n using heapDown.induct with
  | case1 l i n h1 =>
      intro _
      rw [heapDown]
      simp [h1]
  | case2 l i n h1 h2 hbeat ih =>
      intro hn
      rw [heapDown]
      simp only [dif_neg h1, dif_pos h2, if_pos hbeat]
      have hlen : (jqSwap l i (2 * i + 2)).length = l.length := length_jqSwap l i _
      exact (ih (by omega)).trans (jqSwap_perm l i (2 * i + 2) (by omega) (by omega))
  | case3 l i n h1 h2 hbeat =>
      intro _
      rw [heapDown]
      simp [h1, h2, hbeat]
  | case4 l i n h1 h2 hbeat ih =>
      intro hn
      rw [heapDown]
      simp only [dif_neg h1, dif_neg h2, if_pos hbeat]
      have hlen : (jqSwap l i (2 * i + 1)).length = l.length := length_jqSwap l i _
      exact (ih (by omega)).trans (jqSwap_perm l i (2 * i + 1) (by omega) (by omega))
  | case5 l i n h1 h2 hbeat =>
      intro _
      rw [heapDown]
      simp [h1, h2, hbeat]

lemma heapDown_nth_ge : ∀ (l : List JobQueue) (i n k : Nat), n ≤ k →
    nthJQ (heapDown l i n) k = nthJQ l k := by
  intro l i n
  induction l, i, n using heapDown.induct with
  | case1 l i n h1 =>
      intro k _
      rw [heapDown]
      simp [h1]
  | case2 l i n h1 h2 hbeat ih =>
      intro k hk
      rw [heapDown]
      simp only [dif_neg h1, dif_pos h2, if_pos hbeat]
      rw [ih k hk, nthJQ_swap_other l i (2 * i + 2) k (by omega) (by omega)]
  | case3 l i n h1 h2 hbeat =>
      intro k _
      rw [heapDown]
      simp [h1, h2, hbeat]
  | case4 l i n h1 h2 hbeat ih =>
      intro k hk
      rw [heapDown]
      simp only [dif_neg h1, dif_neg h2, if_pos hbeat]
      rw [ih k hk, nthJQ_swap_other l i (2 * i + 1) k (by omega) (by omega)]
  | case5 l i n h1 h2 hbeat =>
      intro k _
      rw [heapDown]
      simp [h1, h2, hbeat]

def downInv (l : List JobQueue) (n i : Nat) : Prop :=
  (∀ a c : Nat, c < n → (c = 2 * a + 1 ∨ c = 2 * a + 2) → a ≠ i →
    (nthJQ l c).Priority ≤ (nthJQ l a).Priority)
  ∧ (∀ c : Nat, c < n → (c = 2 * i + 1 ∨ c = 2 * i + 2) → i ≠ 0 →
    (nthJQ l c).Priority ≤ (nthJQ l ((i - 1) / 2)).Priority)

lemma heapDown_ordered : ∀ (l : List JobQueue) (i n : Nat), n ≤ l.length →
    downInv l n i → heapOrderedN n (heapDown l i n) := by
  intro l i n
  induction l, i, n using heapDown.induct with
  | case1 l i n h1 =>
      intro _ hinv a c hc hchild
      rw [heapDown]
      simp only [dif_pos h1]
      by_cases hai : a = i
      · subst hai
        exact absurd hc (by omega)
      · exact hinv.1 a c hc hchild hai
  | case2 l i n h1 h2 hbeat ih =>
      intro hn hinv
      rw [heapDown]
      simp only [dif_neg h1, dif_pos h2, if_pos hbeat]
      have hlen : (jqSwap l i (2 * i + 2)).length = l.length := length_jqSwap l i _
      have hvi : nthJQ (jqSwap l i (2 * i + 2)) i = nthJQ l (2 * i + 2) :=
        nthJQ_swap_i l i _ (by omega) (by omega)
      have hvj : nthJQ (jqSwap l i (2 * i + 2)) (2 * i + 2) = nthJQ l i :=
        nthJQ_swap_j l i _ (by omega)
      have hvo : ∀ k, k ≠ i → k ≠ 2 * i + 2 → nthJQ (jqSwap l i (2 * i + 2)) k = nthJQ l k :=
        fun k ha hb => nthJQ_swap_other l i _ k ha hb
      have hlt2 : (nthJQ l (2 * i + 1)).Priority < (nthJQ l (2 * i + 2)).Priority := by
        simpa [jqLess] using h2.2
      have hwv : (nthJQ l i).Priority < (nthJQ l (2 * i + 2)).Priority := by
        simpa [jqLess] using hbeat
      apply ih (by omega)
      constructor
      · intro a c hc hchild haj
        by_cases hci : c = 2 * i + 2
        · subst hci
          have hai : a = i := by rcases hchild with h | h <;> omega
          subst hai
          rw [hvj, hvi]
          exact le_of_lt hwv
        · by_cases hcc : c = i
          · subst hcc
            have hi1 : 1 ≤ c := by rcases hchild with h | h <;> omega
            have hpa : a = (c - 1) / 2 := by rcases hchild with h | h <;> omega
            have hane : a ≠ c := by omega
            have hane2 : a ≠ 2 * c + 2 := by omega
            rw [hvi, hvo a hane hane2]
            subst hpa
            exact hinv.2 (2 * c + 2) h2.1 (by omega) (by omega)
          · rw [hvo c hcc hci]
            by_cases hai : a = i
            · subst hai
              have hcl : c = 2 * a + 1 := by rcases hchild with h | h <;> omega
              subst hcl
              rw [hvi]
              exact le_of_lt hlt2
            · have hane2 : a ≠ 2 * i + 2 := haj
              rw [hvo a hai hane2]
              exact hinv.1 a c hc hchild hai
      · intro c hc hchild _
        have hcni : c ≠ i := by omega
        have hcnj : c ≠ 2 * i + 2 := by omega
        have hpar : (2 * i + 2 - 1) / 2 = i := by omega
        rw [hpar, hvi, hvo c hcni hcnj]
        exact hinv.1 (2 * i + 2) c hc hchild (by omega)
  | case3 l i n h1 h2 hbeat =>
      intro hn hinv
      rw [heapDown]
      simp only [dif_neg h1, dif_pos h2, if_neg hbeat]
      intro a c hc hchild
      have hlt2 : (nthJQ l (2 * i + 1)).Priority < (nthJQ l (2 * i + 2)).Priority := by
        simpa [jqLess] using h2.2
      have hnb : ¬ ((nthJQ l i).Priority < (nthJQ l (2 * i + 2)).Priority) := by
        simpa [jqLess] using hbeat
      by_cases hai : a = i
      · subst hai
        have : c = 2 * a + 1 ∨ c = 2 * a + 2 := hchild
        rcases this with h | h <;> subst h <;> omega
      · exact hinv.1 a c hc hchild hai
  | case4 l i n h1 h2 hbeat ih =>
      intro hn hinv
      rw [heapDown]
      simp only [dif_neg h1, dif_neg h2, if_pos hbeat]
      have hlen : (jqSwap l i (2 * i + 1)).length = l.length := length_jqSwap l i _
      have hvi : nthJQ (jqSwap l i (2 * i + 1)) i = nthJQ l (2 * i + 1) :=
        nthJQ_swap_i l i _ (by omega) (by omega)
      have hvj : nthJQ (jqSwap l i (2 * i + 1)) (2 * i + 1) = nthJQ l i :=
        nthJQ_swap_j l i _ (by omega)
      have hvo : ∀ k, k ≠ i → k ≠ 2 * i + 1 → nthJQ (jqSwap l i (2 * i + 1)) k = nthJQ l k :=
        fun k ha hb => nthJQ_swap_other l i _ k ha hb
      have hwv : (nthJQ l i).Priority < (nthJQ l (2 * i + 1)).Priority := by
        simpa [jqLess] using hbeat
      have hother : 2 * i + 2 < n → (nthJQ l (2 * i + 2)).Priority ≤ (nthJQ l (2 * i + 1)).Priority := by
        intro hlt
        by_contra hcon
        exact h2 ⟨hlt, by simp [jqLess]; omega⟩
      apply ih (by omega)
      constructor
      · intro a c hc hchild haj
        by_cases hci : c = 2 * i + 1
        · subst hci
          have hai : a = i := by rcases hchild with h | h <;> omega
          subst hai
          rw [hvj, hvi]
          exact le_of_lt hwv
        · by_cases hcc : c = i
          · subst hcc
            have hi1 : 1 ≤ c := by rcases hchild with h | h <;> omega
            have hpa : a = (c - 1) / 2 := by rcases hchild with h | h <;> omega
            have hane : a ≠ c := by omega
            have hane2 : a ≠ 2 * c + 1 := by omega
            rw [hvi, hvo a hane hane2]
            subst hpa
            exact hinv.2 (2 * c + 1) (by omega) (by omega) (by omega)
          · rw [hvo c hcc hci]
            by_cases hai : a = i
            · subst hai
              have hcl : c = 2 * a + 2 := by rcases hchild with h | h <;> omega
              subst hcl
              rw [hvi]
              exact hother hc
            · have hane2 : a ≠ 2 * i + 1 := haj
              rw [hvo a hai hane2]
              exact hinv.1 a c hc hchild hai
      · intro c hc hchild _
        have hcni : c ≠ i := by omega
        have hcnj : c ≠ 2 * i + 1 := by omega
        have hpar : (2 * i + 1 - 1) / 2 = i := by omega
        rw [hpar, hvi, hvo c hcni hcnj]
        exact hinv.1 (2 * i + 1) c hc hchild (by omega)
  | case5 l i n h1 h2 hbeat =>
      intro hn hinv
      rw [heapDown]
      simp only [dif_neg h1, dif_neg h2, if_neg hbeat]
      intro a c hc hchild
      have hnb : ¬ ((nthJQ l i).Priority < (nthJQ l (2 * i + 1)).Priority) := by
        simpa [jqLess] using hbeat
      have hother : 2 * i + 2 < n → (nthJQ l (2 * i + 2)).Priority ≤ (nthJQ l (2 * i + 1)).Priority := by
        intro hlt
        by_contra hcon
        exact h2 ⟨hlt, by simp [jqLess]; omega⟩
      by_cases hai : a = i
      · subst hai
        rcases hchild with h | h
        · subst h
          omega
        · subst h
          have := hother hc
          omega
      · exact hinv.1 a c hc hchild hai

lemma nthJQ_eq_getElem (l : List JobQueue) (k : Nat) (h : k < l.length) :
    nthJQ l k = l[k] := by
  simp [nthJQ, List.getElem?_eq_getElem h]

lemma nthJQ_dropLast (l : List JobQueue) (k : Nat) (h : k < l.length - 1) :
    nthJQ l.dropLast k = nthJQ l k := by
  rw [List.dropLast_eq_take]
  simp only [nthJQ, List.getElem?_take, if_pos h]

lemma rootMax (l : List JobQueue) (n : Nat) (hord : heapOrderedN n l) :
    ∀ k, k < n → (nthJQ l k).Priority ≤ (nthJQ l 0).Priority := by
  intro k
  induction k using Nat.strong_induction_on with
  | _ k ih =>
      intro hk
      rcases Nat.eq_zero_or_pos k with hk0 | hk1
      · subst hk0
        exact le_refl _
      · have hchild : k = 2 * ((k - 1) / 2) + 1 ∨ k = 2 * ((k - 1) / 2) + 2 := by omega
        exact le_trans (hord _ k hk hchild) (ih ((k - 1) / 2) (by omega) (by omega))

lemma heapPop_spec (l : List JobQueue) (hne : l ≠ []) (hord : heapOrdered l) :
    (heapPopGo l).1 = nthJQ l 0
    ∧ ((heapPopGo l).2).length = l.length - 1
    ∧ ((heapPopGo l).2 ++ [nthJQ l 0]).Perm l
    ∧ heapOrdered (heapPopGo l).2
    ∧ (∀ x ∈ (heapPopGo l).2, x.Priority ≤ (nthJQ l 0).Priority) := by
  have hlpos : 0 < l.length := List.length_pos.mpr hne
  have hn : l.length - 1 < l.length := by omega
  have hL1len : (jqSwap l 0 (l.length - 1)).length = l.length := length_jqSwap l 0 _
  obtain ⟨L2, hL2⟩ : ∃ L2, heapDown (jqSwap l 0 (l.length - 1)) 0 (l.length - 1) = L2 :=
    ⟨_, rfl⟩
  have hL2perm : L2.Perm (jqSwap l 0 (l.length - 1)) := by
    rw [← hL2]
    exact heapDown_perm _ 0 _ (by omega)
  have hLperm : L2.Perm l := hL2perm.trans (jqSwap_perm l 0 _ hlpos hn)
  have hL2len : L2.length = l.length := hLperm.length_eq
  have hitem : nthJQ L2 (l.length - 1) = nthJQ l 0 := by
    rw [← hL2, heapDown_nth_ge _ 0 _ _ (le_refl _), nthJQ_swap_j l 0 _ hn]
  have hpop : heapPopGo l = (nthJQ L2 (l.length - 1), L2.dropLast) := by
    simp only [heapPopGo, hL2]
  have hL2ne : L2 ≠ [] := by
    intro hcon
    rw [hcon] at hL2len
    simp at hL2len
    omega
  have hLL : L2.length - 1 = l.length - 1 := by omega
  have hlast : L2.getLast hL2ne = nthJQ l 0 := by
    rw [List.getLast_eq_getElem, ← nthJQ_eq_getElem L2 (L2.length - 1) (by omega), hLL, hitem]
  have hsplit : L2.dropLast ++ [nthJQ l 0] = L2 := by
    rw [← hlast]
    exact List.dropLast_append_getLast hL2ne
  have hordN : heapOrderedN (l.length - 1) L2 := by
    rw [← hL2]
    apply heapDown_ordered _ 0 _ (by omega)
    constructor
    · intro a c hc hchild hane
      have hr1 : nthJQ (jqSwap l 0 (l.length - 1)) c = nthJQ l c := by
        apply nthJQ_swap_other
        · rcases hchild with h | h <;> omega
        · omega
      have hr2 : nthJQ (jqSwap l 0 (l.length - 1)) a = nthJQ l a := by
        apply nthJQ_swap_other
        · exact hane
        · rcases hchild with h | h <;> omega
      rw [hr1, hr2]
      exact hord a c (by omega) hchild
    · intro c hc hchild h0
      exact absurd rfl h0
  rw [hpop]
  refine ⟨hitem, ?_, ?_, ?_, ?_⟩
  · simp [List.length_dropLast, hL2len]
  · simp only []
    rw [hsplit]
    exact hLperm
  · intro i c hc hchild
    simp only [List.length_dropLast] at hc
    rw [nthJQ_dropLast L2 c (by omega), nthJQ_dropLast L2 i (by omega)]
    exact hordN i c (by omega) hchild
  · intro x hx
    simp only [] at hx
    have hx2 : x ∈ l := hLperm.mem_iff.mp ((List.dropLast_sublist L2).subset hx)
    obtain ⟨k, hk, rfl⟩ := List.mem_iff_getElem.mp hx2
    rw [← nthJQ_eq_getElem l k hk]
    exact rootMax l l.length hord k hk

def pqWF (pq : PriorityQueue) : Prop :=
  heapOrdered pq.items ∧ ∀ it ∈ pq.items, it.Priority = it.Job.Priority

lemma pqWF_new : pqWF NewPriorityQueue := by
  constructor
  · intro i c hc hchild
    simp [NewPriorityQueue] at hc
  · intro it hit
    simp [NewPriorityQueue] at hit

lemma pqWF_push (pq : PriorityQueue) (job : WarmupJob) (h : pqWF pq) :
    pqWF (pq.Push job)
    ∧ ((pq.Push job).items.map JobQueue.Job).Perm (pq.items.map JobQueue.Job ++ [job]) := by
  have hperm := heapPush_perm pq.items { Job := job, Priority := job.Priority }
  refine ⟨⟨heapPush_ordered pq.items _ h.1, ?_⟩, ?_⟩
  · intro it hit
    have : it ∈ pq.items ++ [{ Job := job, Priority := job.Priority }] :=
      hperm.mem_iff.mp hit
    rcases List.mem_append.mp this with hmem | hmem
    · exact h.2 it hmem
    · simp at hmem
      subst hmem
      rfl
  · have := hperm.map JobQueue.Job
    simpa using this

lemma pq_pop_spec (pq : PriorityQueue) (hwf : pqWF pq) (hne : pq.items ≠ []) :
    pq.Pop = (some (nthJQ pq.items 0).Job, ⟨(heapPopGo pq.items).2⟩)
    ∧ pqWF ⟨(heapPopGo pq.items).2⟩
    ∧ ((heapPopGo pq.items).2.map JobQueue.Job
        ++ [(nthJQ pq.items 0).Job]).Perm (pq.items.map JobQueue.Job)
    ∧ (heapPopGo pq.items).2.length = pq.items.length - 1
    ∧ (∀ x ∈ (heapPopGo pq.items).2, x.Priority ≤ (nthJQ pq.items 0).Priority)
    ∧ (nthJQ pq.items 0).Priority = (nthJQ pq.items 0).Job.Priority := by
  obtain ⟨h1, h2, h3, h4, h5⟩ := heapPop_spec pq.items hne hwf.1
  have hlen0 : pq.items.length ≠ 0 := by
    intro hcon
    exact hne (List.length_eq_zero.mp hcon)
  have hmem0 : nthJQ pq.items 0 ∈ pq.items := by
    have hpos : 0 < pq.items.length := by omega
    rw [nthJQ_eq_getElem pq.items 0 hpos]
    exact List.getElem_mem hpos
  refine ⟨?_, ⟨h4, ?_⟩, ?_, h2, h5, hwf.2 _ hmem0⟩
  · simp only [PriorityQueue.Pop, if_neg hlen0]
    rw [h1]
  · intro it hit
    have : it ∈ pq.items := h3.mem_iff.mp (List.mem_append.mpr (Or.inl hit))
    exact hwf.2 it this
  · have := h3.map JobQueue.Job
    simpa using this

lemma popAll_spec : ∀ (k : Nat) (pq : PriorityQueue), pqWF pq → k = pq.items.length →
    List.Sorted (fun a b : Int => b ≤ a) ((popAllJobs k pq).map WarmupJob.Priority)
    ∧ (popAllJobs k pq).Perm (pq.items.map JobQueue.Job) := by
  intro k
  induction k with
  | zero =>
      intro pq _ hlen
      have : pq.items = [] := List.length_eq_zero.mp hlen.symm
      simp [popAllJobs, this]
  | succ j ih =>
      intro pq hwf hlen
      have hne : pq.items ≠ [] := by
        intro hcon
        rw [hcon] at hlen
        simp at hlen
      obtain ⟨hpop, hwf2, hperm, hlen2, hmax, hpr⟩ := pq_pop_spec pq hwf hne
      have hstep : popAllJobs (j + 1) pq
          = (nthJQ pq.items 0).Job :: popAllJobs j ⟨(heapPopGo pq.items).2⟩ := by
        simp only [popAllJobs, hpop]
      obtain ⟨hsort, hperm2⟩ := ih ⟨(heapPopGo pq.items).2⟩ hwf2 (by simp; omega)
      have htail : ∀ x ∈ popAllJobs j ⟨(heapPopGo pq.items).2⟩,
          x.Priority ≤ (nthJQ pq.items 0).Job.Priority := by
        intro x hx
        have hx2 : x ∈ (heapPopGo pq.items).2.map JobQueue.Job := hperm2.mem_iff.mp hx
        obtain ⟨it, hit, rfl⟩ := List.mem_map.mp hx2
        have := hmax it hit
        have hjp := hwf2.2 it hit
        rw [hjp] at this
        rw [← hpr]
        exact this
      constructor
      · rw [hstep]
        simp only [List.map_cons]
        rw [List.sorted_cons]
        refine ⟨?_, hsort⟩
        intro b hb
        obtain ⟨x, hx, rfl⟩ := List.mem_map.mp hb
        exact htail x hx
      · rw [hstep]
        have hcons : ((nthJQ pq.items 0).Job :: popAllJobs j ⟨(heapPopGo pq.items).2⟩).Perm
            ((nthJQ pq.items 0).Job :: (heapPopGo pq.items).2.map JobQueue.Job) :=
          hperm2.cons _
        apply hcons.trans
        have hmid := @List.perm_middle WarmupJob ((nthJQ pq.items 0).Job)
          ((heapPopGo pq.items).2.map JobQueue.Job) []
        rw [List.append_nil] at hmid
        exact (hmid.symm).trans hperm

lemma pushAll_spec : ∀ (jobs : List WarmupJob) (pq : PriorityQueue), pqWF pq →
    pqWF (pushAllJobs jobs pq)
    ∧ ((pushAllJobs jobs pq).items.map JobQueue.Job).Perm
        (pq.items.map JobQueue.Job ++ jobs) := by
  intro jobs
  induction jobs with
  | nil =>
      intro pq hwf
      refine ⟨hwf, by simp [pushAllJobs]⟩
  | cons j js ih =>
      intro pq hwf
      obtain ⟨hwf2, hperm2⟩ := pqWF_push pq j hwf
      have hfold : pushAllJobs (j :: js) pq = pushAllJobs js (pq.Push j) := rfl
      obtain ⟨hwf3, hperm3⟩ := ih (pq.Push j) hwf2
      rw [hfold]
      refine ⟨hwf3, hperm3.trans ?_⟩
      have hap : ((pq.Push j).items.map JobQueue.Job ++ js).Perm
          ((pq.items.map JobQueue.Job ++ [j]) ++ js) := hperm2.append_right js
      have heq : (pq.items.map JobQueue.Job ++ [j]) ++ js
          = pq.items.map JobQueue.Job ++ (j :: js) := by simp
      rw [heq] at hap
      exact hap

theorem claim_C5 (jobs : List WarmupJob) :
    List.Sorted (fun a b : Int => b ≤ a)
      ((popAllJobs (pushAllJobs jobs NewPriorityQueue).items.length
        (pushAllJobs jobs NewPriorityQueue)).map WarmupJob.Priority)
    ∧ (popAllJobs (pushAllJobs jobs NewPriorityQueue).items.length
        (pushAllJobs jobs NewPriorityQueue)).Perm jobs
    ∧ (∀ pq : PriorityQueue, pq.items = [] → pq.Pop = (none, pq)) := by
  obtain ⟨hwf, hperm⟩ := pushAll_spec jobs NewPriorityQueue pqWF_new
  obtain ⟨hsort, hperm2⟩ := popAll_spec (pushAllJobs jobs NewPriorityQueue).items.length
    (pushAllJobs jobs NewPriorityQueue) hwf rfl
  refine ⟨hsort, hperm2.trans ?_, ?_⟩
  · simpa [NewPriorityQueue] using hperm
  · intro pq hpq
    simp [PriorityQueue.Pop, hpq]

theorem claim_C5_witness :
    List.Sorted (fun a b : Int => b ≤ a)
      ((popAllJobs (pushAllJobs [⟨"a", "", 0, 3⟩, ⟨"b", "", 0, 7⟩]
          NewPriorityQueue).items.length
        (pushAllJobs [⟨"a", "", 0, 3⟩, ⟨"b", "", 0, 7⟩] NewPriorityQueue)).map
          WarmupJob.Priority)
    ∧ (popAllJobs (pushAllJobs [⟨"a", "", 0, 3⟩, ⟨"b", "", 0, 7⟩]
          NewPriorityQueue).items.length
        (pushAllJobs [⟨"a", "", 0, 3⟩, ⟨"b", "", 0, 7⟩] NewPriorityQueue)).Perm
        [⟨"a", "", 0, 3⟩, ⟨"b", "", 0, 7⟩]
    ∧ (∀ pq : PriorityQueue, pq.items = [] → pq.Pop = (none, pq)) :=
  claim_C5 [⟨"a", "", 0, 3⟩, ⟨"b", "", 0, 7⟩]

/-- Error values crossing the cache boundary: the `ErrCacheMiss` and
`ErrCacheDown` sentinels declared in `redis.go`, plus `errorf msg` for an
ad-hoc error produced by `fmt.Errorf` with format string `msg` (the
wrapped cause is abstracted away). -/
inductive CacheErr where
  | cacheMiss
  | cacheDown
  | errorf (msg : String)
deriving DecidableEq

/-- Modelled from the spec: the `MemoryCache` local (L1) tier used by
`MultiLevelCache` is absent from the provided sources (only its call sites
in `multilevel.go` appear).  Per spec sections 3 and 4.1 it is an in-memory
key to value-plus-expiry map whose operations never fail.  Values of the
cached type are the parameter `α`. -/
structure MemoryCache (α : Type) where
  entries : List (String × α × Int)

/-- Modelled from the spec: `MemoryCache.Set` stores the value under the
key with expiry `now + ttl` (the local tier tracks insertion time and
expiry); it cannot fail. -/
def memSet {α : Type} (now : Int) (mc : MemoryCache α) (key : String) (value : α)
    (ttl : Int) : MemoryCache α :=
  ⟨(key, value, now + ttl) :: mc.entries⟩

/-- Modelled from the spec: `MemoryCache.Get` returns the stored value
while `now` is before its expiry, and a miss otherwise. -/
def memGet {α : Type} (now : Int) (mc : MemoryCache α) (key : String) : Option α :=
  match mc.entries.find? (fun e => e.1 == key) with
  | some e => if now < e.2.2 then some e.2.1 else none
  | none => none

/-- The remote (L2) tier: `RedisCache` together with the Redis server it
talks to.  The server is modelled as a key/value/expiry store plus an
availability flag: when unavailable, `Set`/`Get` fail with the
`fmt.Errorf`-wrapped network error exactly as in `redis.go`; when
available, `Get` of an absent or expired key is `ErrCacheMiss`.  JSON
marshalling of a (JSON-serialisable) value is modelled as the identity. -/
structure RedisCacheModel (α : Type) where
  avail : Bool
  store : List (String × α × Int)

/-- `RedisCache.Set`: marshal the value and `SET` it with the given
expiration; a backend failure is wrapped as "failed to set cache". -/
def redisSet {α : Type} (now : Int) (r : RedisCacheModel α) (key : String) (value : α)
    (ttl : Int) : Except CacheErr (RedisCacheModel α) :=
  if r.avail then .ok ⟨true, (key, value, now + ttl) :: r.store⟩
  else .error (.errorf "failed to set cache")

/-- `RedisCache.Get`: `GET` then unmarshal; `redis.Nil` becomes
`ErrCacheMiss`, other backend failures are wrapped as "failed to get from
cache". -/
def redisGet {α : Type} (now : Int) (r : RedisCacheModel α) (key : String) :
    Except CacheErr α :=
  if r.avail then
    match r.store.find? (fun e => e.1 == key) with
    | some e => if now < e.2.2 then .ok e.2.1 else .error .cacheMiss
    | none => .error .cacheMiss
  else .error (.errorf "failed to get from cache")

/-- The `MultiLevelCache` struct: local tier `l1`, optional remote tier
`l2` (nil when no Redis cache is configured). -/
structure MultiLevelCache (α : Type) where
  l1 : MemoryCache α
  l2 : Option (RedisCacheModel α)

/-- `NewMultiLevelCache`: fresh empty local tier plus the given remote
tier. -/
def NewMultiLevelCache {α : Type} (redisCache : Option (RedisCacheModel α)) :
    MultiLevelCache α :=
  ⟨⟨[]⟩, redisCache⟩

/-- `copyValue`/`copyValueViaJSON`: at every `Get` call site `dest` is a
non-nil settable pointer, so the reflection guards pass and the value is
copied through `json.Marshal`/`json.Unmarshal`; the round-trip is the
identity on the JSON-serialisable value domain. -/
def copyValue {α : Type} (src : α) : Except CacheErr α := .ok src

/-- The fixed local-tier backfill TTL used by `MultiLevelCache.Get`:
`5 * time.Minute` in nanoseconds. -/
def fiveMinutes : Int := 5 * 60 * 1000000000

/-- `MultiLevelCache.Set`: write the local tier unconditionally, then the
remote tier when configured, surfacing its error; with no remote tier the
result is nil. -/
def MultiLevelCache.Set {α : Type} (c : MultiLevelCache α) (now : Int) (key : String)
    (value : α) (ttl : Int) : Except CacheErr Unit × MultiLevelCache α :=
  let l1 := memSet now c.l1 key value ttl
  match c.l2 with
  | some r =>
      match redisSet now r key value ttl with
      | .ok r2 => (.ok (), { l1 := l1, l2 := some r2 })
      | .error e => (.error e, { l1 := l1, l2 := some r })
  | none => (.ok (), { l1 := l1, l2 := none })

/-- `MultiLevelCache.Get`: local tier first; on a local hit the value is
copied into `dest`; on a local miss with a remote tier configured, the
remote value (when found) is written back into the local tier with the
fixed `5*time.Minute` TTL before being returned; with no remote tier the
result is `ErrCacheMiss`. -/
def MultiLevelCache.Get {α : Type} (c : MultiLevelCache α) (now : Int) (key : String) :
    Except CacheErr α × MultiLevelCache α :=
  match memGet now c.l1 key with
  | some value => (copyValue value, c)
  | none =>
      match c.l2 with
      | some r =>
          match redisGet now r key with
          | .ok v => (.ok v, { c with l1 := memSet now c.l1 key v fiveMinutes })
          | .error e => (.error e, c)
      | none => (.error .cacheMiss, c)

lemma mlSet_l1 {α : Type} (c : MultiLevelCache α) (now : Int) (key : String) (value : α)
    (ttl : Int) : (c.Set now key value ttl).2.l1 = memSet now c.l1 key value ttl := by
  rcases c with ⟨l1, l2⟩
  rcases l2 with _ | r
  · rfl
  · simp only [MultiLevelCache.Set]
    rcases h : redisSet now r key value ttl with e | r2 <;> simp

lemma memGet_memSet_self {α : Type} (mc : MemoryCache α) (now now2 : Int) (key : String)
    (value : α) (ttl : Int) (h : now2 < now + ttl) :
    memGet now2 (memSet now mc key value ttl) key = some value := by
  simp [memGet, memSet, List.find?_cons, h]

theorem claim_C3 {α : Type} (c : MultiLevelCache α) (now : Int) (key : String)
    (value : α) (ttl : Int) :
    ((c.Set now key value ttl).2.l1 = memSet now c.l1 key value ttl)
    ∧ (∀ r : RedisCacheModel α, ∀ e : CacheErr, c.l2 = some r →
        redisSet now r key value ttl = .error e →
        (c.Set now key value ttl).1 = .error e)
    ∧ (∀ r : RedisCacheModel α, c.l2 = some r → r.avail = false →
        (c.Set now key value ttl).1 = .error (.errorf "failed to set cache"))
    ∧ (c.l2 = none → (c.Set now key value ttl).1 = .ok ()) := by
  refine ⟨mlSet_l1 c now key value ttl, ?_, ?_, ?_⟩
  · intro r e hl2 herr
    rcases c with ⟨l1, l2⟩
    simp only at hl2
    subst hl2
    simp [MultiLevelCache.Set, herr]
  · intro r hl2 hav
    rcases c with ⟨l1, l2⟩
    simp only at hl2
    subst hl2
    simp [MultiLevelCache.Set, redisSet, hav]
  · intro hl2
    rcases c with ⟨l1, l2⟩
    simp only at hl2
    subst hl2
    simp [MultiLevelCache.Set]

theorem claim_C3_witness :
    ((MultiLevelCache.Set (⟨⟨[]⟩, some ⟨false, []⟩⟩ : MultiLevelCache String) 0 "k" "v" 60).2.l1
        = memSet 0 (⟨[]⟩ : MemoryCache String) "k" "v" 60)
    ∧ (∀ r : RedisCacheModel String, ∀ e : CacheErr,
        (⟨⟨[]⟩, some ⟨false, []⟩⟩ : MultiLevelCache String).l2 = some r →
        redisSet 0 r "k" "v" 60 = .error e →
        (MultiLevelCache.Set (⟨⟨[]⟩, some ⟨false, []⟩⟩ : MultiLevelCache String) 0 "k" "v" 60).1
          = .error e)
    ∧ (∀ r : RedisCacheModel String,
        (⟨⟨[]⟩, some ⟨false, []⟩⟩ : MultiLevelCache String).l2 = some r → r.avail = false →
        (MultiLevelCache.Set (⟨⟨[]⟩, some ⟨false, []⟩⟩ : MultiLevelCache String) 0 "k" "v" 60).1
          = .error (.errorf "failed to set cache"))
    ∧ ((⟨⟨[]⟩, some ⟨false, []⟩⟩ : MultiLevelCache String).l2 = none →
        (MultiLevelCache.Set (⟨⟨[]⟩, some ⟨false, []⟩⟩ : MultiLevelCache String) 0 "k" "v" 60).1
          = .ok ()) :=
  claim_C3 ⟨⟨[]⟩, some ⟨false, []⟩⟩ 0 "k" "v" 60

theorem claim_C6 {α : Type} (c : MultiLevelCache α) (now now2 : Int) (key : String)
    (value : α) (ttl : Int) (h : now2 < now + ttl) :
    (((c.Set now key value ttl).2).Get now2 key).1 = .ok value := by
  have h1 := mlSet_l1 c now key value ttl
  have h2 := memGet_memSet_self c.l1 now now2 key value ttl h
  simp [MultiLevelCache.Get, h1, h2, copyValue]

theorem claim_C6_witness :
    ((10 : Int) < 0 + 60)
    ∧ (((MultiLevelCache.Set (⟨⟨[]⟩, none⟩ : MultiLevelCache Int) 0 "k" 42 60).2).Get 10 "k").1
        = .ok 42 :=
  ⟨by decide, claim_C6 ⟨⟨[]⟩, none⟩ 0 10 "k" 42 60 (by decide)⟩

theorem claim_C4_counterexample :
    redisSet (0 : Int) (⟨true, []⟩ : RedisCacheModel String) "k" "v" 60000000000
      = .ok ⟨true, [("k", "v", 60000000000)]⟩
    ∧ (MultiLevelCache.Get
        (⟨⟨[]⟩, some ⟨true, [("k", "v", 60000000000)]⟩⟩ : MultiLevelCache String) 0 "k").1
        = .ok "v"
    ∧ (MultiLevelCache.Get
        (⟨⟨[]⟩, some ⟨true, [("k", "v", 60000000000)]⟩⟩ : MultiLevelCache String) 0 "k").2.l1.entries
        = [("k", "v", fiveMinutes)]
    ∧ ¬ (fiveMinutes < 60000000000) := by
  refine ⟨by rfl, by rfl, by rfl, by decide⟩

theorem claim_C4_amended {α : Type} (c : MultiLevelCache α) (now : Int) (key : String) :
    (∀ v : α, memGet now c.l1 key = some v → c.Get now key = (.ok v, c))
    ∧ (∀ r : RedisCacheModel α, ∀ v : α, memGet now c.l1 key = none → c.l2 = some r →
        redisGet now r key = .ok v →
        c.Get now key = (.ok v, { c with l1 := memSet now c.l1 key v fiveMinutes }))
    ∧ (∀ r : RedisCacheModel α, ∀ e : CacheErr, memGet now c.l1 key = none → c.l2 = some r →
        redisGet now r key = .error e →
        c.Get now key = (.error e, c))
    ∧ (memGet now c.l1 key = none → c.l2 = none →
        c.Get now key = (.error .cacheMiss, c)) := by
  refine ⟨?_, ?_, ?_, ?_⟩
  · intro v hv
    simp [MultiLevelCache.Get, hv, copyValue]
  · intro r v hmiss hl2 hok
    rcases c with ⟨l1, l2⟩
    simp only at hl2 hmiss
    subst hl2
    simp [MultiLevelCache.Get, hmiss, hok]
  · intro r e hmiss hl2 herr
    rcases c with ⟨l1, l2⟩
    simp only at hl2 hmiss
    subst hl2
    simp [MultiLevelCache.Get, hmiss, herr]
  · intro hmiss hl2
    rcases c with ⟨l1, l2⟩
    simp only at hl2 hmiss
    subst hl2
    simp [MultiLevelCache.Get, hmiss]

theorem claim_C4_amended_witness :
    (∀ v : String,
        memGet 0 (⟨⟨[]⟩, some ⟨true, [("k", "v", 60000000000)]⟩⟩ : MultiLevelCache String).l1 "k"
          = some v →
        MultiLevelCache.Get (⟨⟨[]⟩, some ⟨true, [("k", "v", 60000000000)]⟩⟩ : MultiLevelCache String) 0 "k"
          = (.ok v, ⟨⟨[]⟩, some ⟨true, [("k", "v", 60000000000)]⟩⟩))
    ∧ (∀ r : RedisCacheModel String, ∀ v : String,
        memGet 0 (⟨⟨[]⟩, some ⟨true, [("k", "v", 60000000000)]⟩⟩ : MultiLevelCache String).l1 "k"
          = none →
        (⟨⟨[]⟩, some ⟨true, [("k", "v", 60000000000)]⟩⟩ : MultiLevelCache String).l2 = some r →
        redisGet 0 r "k" = .ok v →
        MultiLevelCache.Get (⟨⟨[]⟩, some ⟨true, [("k", "v", 60000000000)]⟩⟩ : MultiLevelCache String) 0 "k"
          = (.ok v, { (⟨⟨[]⟩, some ⟨true, [("k", "v", 60000000000)]⟩⟩ : MultiLevelCache String) with
              l1 := memSet 0 (⟨[]⟩ : MemoryCache String) "k" v fiveMinutes }))
    ∧ (∀ r : RedisCacheModel String, ∀ e : CacheErr,
        memGet 0 (⟨⟨[]⟩, some ⟨true, [("k", "v", 60000000000)]⟩⟩ : MultiLevelCache String).l1 "k"
          = none →
        (⟨⟨[]⟩, some ⟨true, [("k", "v", 60000000000)]⟩⟩ : MultiLevelCache String).l2 = some r →
        redisGet 0 r "k" = .error e →
        MultiLevelCache.Get (⟨⟨[]⟩, some ⟨true, [("k", "v", 60000000000)]⟩⟩ : MultiLevelCache String) 0 "k"
          = (.error e, ⟨⟨[]⟩, some ⟨true, [("k", "v", 60000000000)]⟩⟩))
    ∧ (memGet 0 (⟨⟨[]⟩, some ⟨true, [("k", "v", 60000000000)]⟩⟩ : MultiLevelCache String).l1 "k"
          = none →
        (⟨⟨[]⟩, some ⟨true, [("k", "v", 60000000000)]⟩⟩ : MultiLevelCache String).l2 = none →
        MultiLevelCache.Get (⟨⟨[]⟩, some ⟨true, [("k", "v", 60000000000)]⟩⟩ : MultiLevelCache String) 0 "k"
          = (.error .cacheMiss, ⟨⟨[]⟩, some ⟨true, [("k", "v", 60000000000)]⟩⟩)) :=
  claim_C4_amended ⟨⟨[]⟩, some ⟨true, [("k", "v", 60000000000)]⟩⟩ 0 "k"

/-- `WarmupStrategy`: sizing and flag fields; the `Jobs` list and the
`HealthCheckFunc` function field are not observed by the claims under
proof and are omitted. -/
structure WarmupStrategy where
  BatchSize : Int
  ConcurrentJobs : Int
  WarmupInterval : Int
  UseWorkerPool : Bool
  UseScheduler : Bool
deriving DecidableEq

/-- The legacy `CacheWarmer` engine: of its fields the claims observe
`strategy` and `running`; the wrapped cache, worker pool, scheduler,
priority queue and stop channel are concurrency plumbing with no bearing
on the claims and are omitted. -/
structure CacheWarmer where
  strategy : WarmupStrategy
  running : Bool
deriving DecidableEq

/-- `NewCacheWarmer`: a fresh warmer is not running. -/
def NewCacheWarmer (strategy : WarmupStrategy) : CacheWarmer :=
  { strategy := strategy, running := false }

/-- `CacheWarmer.Start`: returns immediately when already running,
otherwise marks the warmer running (and launches the pool/scheduler). -/
def CacheWarmer.Start (cw : CacheWarmer) : CacheWarmer :=
  if cw.running then cw else { cw with running := true }

/-- `CacheWarmer.Stop`: returns immediately when not running, otherwise
clears `running` (and stops the pool/scheduler). -/
def CacheWarmer.Stop (cw : CacheWarmer) : CacheWarmer :=
  if cw.running = false then cw else { cw with running := false }

/-- Modelled from the spec: the `IntegratedCacheWarmer` (the distributed
engine) is absent from the provided sources; only its call surface in
`redis.go` (`NewIntegratedCacheWarmer`, `Start`, `Stop`, `IsRunning`, the
`strategy` field, `routeJob`) appears.  Per spec section 4.7 it is the
distributed engine behind the same start/stop surface; the claims observe
only its `strategy` and running flag, with `Start`/`Stop` setting and
clearing the flag. -/
structure IntegratedCacheWarmer where
  strategy : WarmupStrategy
  running : Bool
deriving DecidableEq

/-- Modelled from the spec: a fresh integrated warmer is not running. -/
def NewIntegratedCacheWarmer (strategy : WarmupStrategy) : IntegratedCacheWarmer :=
  { strategy := strategy, running := false }

/-- Modelled from the spec: `IntegratedCacheWarmer.Start`. -/
def IntegratedCacheWarmer.Start (w : IntegratedCacheWarmer) : IntegratedCacheWarmer :=
  { w with running := true }

/-- Modelled from the spec: `IntegratedCacheWarmer.Stop`. -/
def IntegratedCacheWarmer.Stop (w : IntegratedCacheWarmer) : IntegratedCacheWarmer :=
  { w with running := false }

/-- Modelled from the spec: `IntegratedCacheWarmer.IsRunning`. -/
def IntegratedCacheWarmer.IsRunning (w : IntegratedCacheWarmer) : Bool := w.running

/-- `CacheWarmingMode` (`ModeAuto | ModeLegacy | ModeIntegrated |
ModeLocalOnly | ModeDistributed`). -/
inductive CacheWarmingMode where
  | auto
  | legacy
  | integrated
  | localOnly
  | distributed
deriving DecidableEq

/-- The distributed backend handle (`*redis.Client`): what the claims
observe is whether it is configured and whether the 2-second liveness
`Ping` in `determineMode` succeeds. -/
structure RedisClientModel where
  pingOk : Bool
deriving DecidableEq

/-- `CacheWarmingConfig`: mode, optional Redis client and strategy; the
metrics/fallback tuning fields are not read by the modelled paths. -/
structure CacheWarmingConfig where
  Mode : CacheWarmingMode
  RedisClient : Option RedisClientModel
  Strategy : WarmupStrategy
deriving DecidableEq

/-- The `UnifiedCacheManager` struct: mode flag plus the (at most one)
active engine; the context field is process plumbing and is omitted. -/
structure UnifiedCacheManager where
  integratedWarmer : Option IntegratedCacheWarmer
  legacyWarmer : Option CacheWarmer
  useIntegrated : Bool
deriving DecidableEq

/-- `determineMode`: forced Legacy stays Legacy; the integrated family
falls back to Legacy without a Redis client; Auto probes the client with a
short-timeout `Ping` and uses Integrated exactly when it succeeds. -/
def determineMode (config : CacheWarmingConfig) : CacheWarmingMode :=
  match config.Mode with
  | .legacy => .legacy
  | .integrated =>
      match config.RedisClient with
      | some _ => config.Mode
      | none => .legacy
  | .localOnly =>
      match config.RedisClient with
      | some _ => config.Mode
      | none => .legacy
  | .distributed =>
      match config.RedisClient with
      | some _ => config.Mode
      | none => .legacy
  | .auto =>
      match config.RedisClient with
      | some client => if client.pingOk then .integrated else .legacy
      | none => .legacy

/-- `NewUnifiedCacheManager`: picks the mode, then constructs exactly one
engine (`useIntegrated` when the determined mode is not Legacy).  The
`config == nil` default branch is not modelled: the claims quantify over
explicit configurations. -/
def NewUnifiedCacheManager (config : CacheWarmingConfig) : UnifiedCacheManager :=
  if determineMode config ≠ CacheWarmingMode.legacy then
    { integratedWarmer := some (NewIntegratedCacheWarmer config.Strategy)
      legacyWarmer := none
      useIntegrated := true }
  else
    { integratedWarmer := none
      legacyWarmer := some (NewCacheWarmer config.Strategy)
      useIntegrated := false }

/-- `UnifiedCacheManager.Start`: delegates to the active engine (in Go the
nil-engine case would be a nil-pointer dereference and is unreachable for
constructed managers; `Option.map` leaves it untouched). -/
def UnifiedCacheManager.Start (ucm : UnifiedCacheManager) : UnifiedCacheManager :=
  if ucm.useIntegrated then
    { ucm with integratedWarmer := ucm.integratedWarmer.map IntegratedCacheWarmer.Start }
  else
    { ucm with legacyWarmer := ucm.legacyWarmer.map CacheWarmer.Start }

/-- `UnifiedCacheManager.Stop`: delegates to the active engine. -/
def UnifiedCacheManager.Stop (ucm : UnifiedCacheManager) : UnifiedCacheManager :=
  if ucm.useIntegrated then
    { ucm with integratedWarmer := ucm.integratedWarmer.map IntegratedCacheWarmer.Stop }
  else
    { ucm with legacyWarmer := ucm.legacyWarmer.map CacheWarmer.Stop }

/-- `IsRunning`: the integrated engine is asked for its running flag, but
in legacy mode the answer is `ucm.legacyWarmer != nil` — mere existence of
the warmer object. -/
def UnifiedCacheManager.IsRunning (ucm : UnifiedCacheManager) : Bool :=
  if ucm.useIntegrated then
    match ucm.integratedWarmer with
    | some w => w.IsRunning
    | none => false
  else
    ucm.legacyWarmer.isSome

/-- `IsIntegrated`. -/
def UnifiedCacheManager.IsIntegrated (ucm : UnifiedCacheManager) : Bool := ucm.useIntegrated

/-- The `"system_type"` entry of `GetSystemInfo`'s result map:
`"integrated"` in integrated mode, `"legacy"` in legacy mode (the other
entries are metrics plumbing not observed by the claims). -/
def UnifiedCacheManager.systemType (ucm : UnifiedCacheManager) : String :=
  if ucm.useIntegrated then "integrated" else "legacy"

/-- `EnqueueEvictionJob`: in legacy mode it fails with the formatted error
shown; in integrated mode it builds a `DistributedCacheJob` and routes it
(`routeJob` is absent from the provided sources; per the spec the route
accepts the job, modelled as success). -/
def UnifiedCacheManager.EnqueueEvictionJob (ucm : UnifiedCacheManager) (_key : String)
    (_priority : Int) : Except CacheErr Unit :=
  if ucm.useIntegrated = false then
    .error (.errorf "eviction jobs not supported in legacy mode")
  else
    .ok ()

/-- `EnqueueValidationJob`: legacy mode fails with the formatted error
shown; the integrated route is modelled as for eviction. -/
def UnifiedCacheManager.EnqueueValidationJob (ucm : UnifiedCacheManager) (_key : String)
    (_priority : Int) : Except CacheErr Unit :=
  if ucm.useIntegrated = false then
    .error (.errorf "validation jobs not supported in legacy mode")
  else
    .ok ()

/-- `UpdateConfiguration(newStrategy)`: nil strategy is rejected;
otherwise `wasRunning := IsRunning()`, stop when `wasRunning`, swap the
active engine's strategy, and start again when `wasRunning`.  The modelled
engine `Start`/`Stop` cannot fail, so the two error-wrapping branches are
not taken. -/
def UnifiedCacheManager.UpdateConfiguration (ucm : UnifiedCacheManager)
    (newStrategy : Option WarmupStrategy) : Except CacheErr Unit × UnifiedCacheManager :=
  match newStrategy with
  | none => (.error (.errorf "strategy cannot be nil"), ucm)
  | some strat =>
      let wasRunning := ucm.IsRunning
      let ucm1 := if wasRunning then ucm.Stop else ucm
      let ucm2 :=
        if ucm1.useIntegrated then
          { ucm1 with integratedWarmer :=
              ucm1.integratedWarmer.map (fun w => { w with strategy := strat }) }
        else
          { ucm1 with legacyWarmer :=
              ucm1.legacyWarmer.map (fun w => { w with strategy := strat }) }
      let ucm3 := if wasRunning then ucm2.Start else ucm2
      (.ok (), ucm3)

theorem claim_C7_counterexample :
    (NewUnifiedCacheManager ⟨.auto, none, ⟨10, 3, 300, true, true⟩⟩).EnqueueEvictionJob "k" 1
      = .error (.errorf "eviction jobs not supported in legacy mode")
    ∧ (NewUnifiedCacheManager ⟨.auto, none, ⟨10, 3, 300, true, true⟩⟩).EnqueueValidationJob "k" 1
      = .error (.errorf "validation jobs not supported in legacy mode")
    ∧ "eviction jobs not supported in legacy mode" ≠ "unsupported in legacy mode"
    ∧ "validation jobs not supported in legacy mode" ≠ "unsupported in legacy mode" := by
  refine ⟨rfl, rfl, by decide, by decide⟩

theorem claim_C7_amended (config : CacheWarmingConfig)
    (hmode : config.Mode = .auto) (hredis : config.RedisClient = none) :
    (NewUnifiedCacheManager config).IsIntegrated = false
    ∧ (NewUnifiedCacheManager config).systemType = "legacy"
    ∧ (∀ key : String, ∀ priority : Int,
        (NewUnifiedCacheManager config).EnqueueEvictionJob key priority
          = .error (.errorf "eviction jobs not supported in legacy mode"))
    ∧ (∀ key : String, ∀ priority : Int,
        (NewUnifiedCacheManager config).EnqueueValidationJob key priority
          = .error (.errorf "validation jobs not supported in legacy mode")) := by
  have hdm : determineMode config = .legacy := by
    simp [determineMode, hmode, hredis]
  have hnew : NewUnifiedCacheManager config =
      { integratedWarmer := none
        legacyWarmer := some (NewCacheWarmer config.Strategy)
        useIntegrated := false } := by
    simp [NewUnifiedCacheManager, hdm]
  rw [hnew]
  refine ⟨rfl, rfl, fun _ _ => rfl, fun _ _ => rfl⟩

theorem claim_C7_amended_witness :
    ((⟨.auto, none, ⟨10, 3, 300, true, true⟩⟩ : CacheWarmingConfig).Mode = .auto)
    ∧ ((⟨.auto, none, ⟨10, 3, 300, true, true⟩⟩ : CacheWarmingConfig).RedisClient = none)
    ∧ ((NewUnifiedCacheManager ⟨.auto, none, ⟨10, 3, 300, true, true⟩⟩).IsIntegrated = false
      ∧ (NewUnifiedCacheManager ⟨.auto, none, ⟨10, 3, 300, true, true⟩⟩).systemType = "legacy"
      ∧ (∀ key : String, ∀ priority : Int,
          (NewUnifiedCacheManager ⟨.auto, none, ⟨10, 3, 300, true, true⟩⟩).EnqueueEvictionJob
            key priority = .error (.errorf "eviction jobs not supported in legacy mode"))
      ∧ (∀ key : String, ∀ priority : Int,
          (NewUnifiedCacheManager ⟨.auto, none, ⟨10, 3, 300, true, true⟩⟩).EnqueueValidationJob
            key priority = .error (.errorf "validation jobs not supported in legacy mode"))) :=
  ⟨rfl, rfl, claim_C7_amended ⟨.auto, none, ⟨10, 3, 300, true, true⟩⟩ rfl rfl⟩

theorem claim_C8_counterexample :
    (UnifiedCacheManager.UpdateConfiguration
        ⟨none, some ⟨⟨10, 3, 300, true, true⟩, false⟩, false⟩
        (some ⟨5, 2, 60, true, false⟩)).1 = .ok ()
    ∧ (⟨⟨10, 3, 300, true, true⟩, false⟩ : CacheWarmer).running = false
    ∧ (UnifiedCacheManager.UpdateConfiguration
        ⟨none, some ⟨⟨10, 3, 300, true, true⟩, false⟩, false⟩
        (some ⟨5, 2, 60, true, false⟩)).2.legacyWarmer
      = some ⟨⟨5, 2, 60, true, false⟩, true⟩ :=
  ⟨rfl, rfl, rfl⟩

theorem claim_C8_amended (ucm : UnifiedCacheManager) (strat : WarmupStrategy) :
    (ucm.UpdateConfiguration none = (.error (.errorf "strategy cannot be nil"), ucm))
    ∧ (ucm.UpdateConfiguration (some strat)).1 = .ok ()
    ∧ (∀ w : CacheWarmer, ucm.useIntegrated = false → ucm.legacyWarmer = some w →
        (ucm.UpdateConfiguration (some strat)).2.legacyWarmer = some ⟨strat, true⟩)
    ∧ (∀ w : IntegratedCacheWarmer, ucm.useIntegrated = true → ucm.integratedWarmer = some w →
        (ucm.UpdateConfiguration (some strat)).2.integratedWarmer = some ⟨strat, w.running⟩)
    ∧ (ucm.IsRunning = true → (ucm.UpdateConfiguration (some strat)).2.IsRunning = true) := by
  rcases ucm with ⟨iw, lw, ui⟩
  refine ⟨rfl, rfl, ?_, ?_, ?_⟩
  · intro w hui hlw
    subst hui
    subst hlw
    simp [UnifiedCacheManager.UpdateConfiguration, UnifiedCacheManager.IsRunning,
          UnifiedCacheManager.Stop, UnifiedCacheManager.Start,
          CacheWarmer.Stop, CacheWarmer.Start]
  · intro w hui hiw
    subst hui
    subst hiw
    rcases w with ⟨s, r⟩
    cases r <;>
      simp [UnifiedCacheManager.UpdateConfiguration, UnifiedCacheManager.IsRunning,
            UnifiedCacheManager.Stop, UnifiedCacheManager.Start,
            IntegratedCacheWarmer.Stop, IntegratedCacheWarmer.Start,
            IntegratedCacheWarmer.IsRunning]
  · intro hrun
    cases ui
    · rcases lw with _ | w
      · simp [UnifiedCacheManager.IsRunning] at hrun
      · simp [UnifiedCacheManager.UpdateConfiguration, UnifiedCacheManager.IsRunning,
              UnifiedCacheManager.Stop, UnifiedCacheManager.Start,
              CacheWarmer.Stop, CacheWarmer.Start]
    · rcases iw with _ | w
      · simp [UnifiedCacheManager.IsRunning] at hrun
      · simp [UnifiedCacheManager.UpdateConfiguration, UnifiedCacheManager.IsRunning,
              IntegratedCacheWarmer.IsRunning] at hrun
        rcases w with ⟨s, r⟩
        subst hrun
        simp [UnifiedCacheManager.UpdateConfiguration, UnifiedCacheManager.IsRunning,
              UnifiedCacheManager.Stop, UnifiedCacheManager.Start,
              IntegratedCacheWarmer.Stop, IntegratedCacheWarmer.Start,
              IntegratedCacheWarmer.IsRunning]

theorem claim_C8_amended_witness :
    (UnifiedCacheManager.UpdateConfiguration
        ⟨none, some ⟨⟨10, 3, 300, true, true⟩, true⟩, false⟩ none
      = (.error (.errorf "strategy cannot be nil"),
         ⟨none, some ⟨⟨10, 3, 300, true, true⟩, true⟩, false⟩))
    ∧ (UnifiedCacheManager.UpdateConfiguration
        ⟨none, some ⟨⟨10, 3, 300, true, true⟩, true⟩, false⟩
        (some ⟨5, 2, 60, true, false⟩)).1 = .ok ()
    ∧ (∀ w : CacheWarmer,
        (⟨none, some ⟨⟨10, 3, 300, true, true⟩, true⟩, false⟩ : UnifiedCacheManager).useIntegrated
          = false →
        (⟨none, some ⟨⟨10, 3, 300, true, true⟩, true⟩, false⟩ : UnifiedCacheManager).legacyWarmer
          = some w →
        (UnifiedCacheManager.UpdateConfiguration
          ⟨none, some ⟨⟨10, 3, 300, true, true⟩, true⟩, false⟩
          (some ⟨5, 2, 60, true, false⟩)).2.legacyWarmer = some ⟨⟨5, 2, 60, true, false⟩, true⟩)
    ∧ (∀ w : IntegratedCacheWarmer,
        (⟨none, some ⟨⟨10, 3, 300, true, true⟩, true⟩, false⟩ : UnifiedCacheManager).useIntegrated
          = true →
        (⟨none, some ⟨⟨10, 3, 300, true, true⟩, true⟩, false⟩ : UnifiedCacheManager).integratedWarmer
          = some w →
        (UnifiedCacheManager.UpdateConfiguration
          ⟨none, some ⟨⟨10, 3, 300, true, true⟩, true⟩, false⟩
          (some ⟨5, 2, 60, true, false⟩)).2.integratedWarmer = some ⟨⟨5, 2, 60, true, false⟩, w.running⟩)
    ∧ ((⟨none, some ⟨⟨10, 3, 300, true, true⟩, true⟩, false⟩ : UnifiedCacheManager).IsRunning = true →
        (UnifiedCacheManager.UpdateConfiguration
          ⟨none, some ⟨⟨10, 3, 300, true, true⟩, true⟩, false⟩
          (some ⟨5, 2, 60, true, false⟩)).2.IsRunning = true) :=
  claim_C8_amended ⟨none, some ⟨⟨10, 3, 300, true, true⟩, true⟩, false⟩ ⟨5, 2, 60, true, false⟩

theorem claim_C10 (config : CacheWarmingConfig) (h : determineMode config = .legacy) :
    (NewUnifiedCacheManager config).IsRunning = true
    ∧ (NewUnifiedCacheManager config).legacyWarmer = some (NewCacheWarmer config.Strategy)
    ∧ (NewCacheWarmer config.Strategy).running = false
    ∧ (∀ ucm : UnifiedCacheManager, ∀ w : CacheWarmer, ucm.useIntegrated = false →
        ucm.legacyWarmer = some w → ucm.IsRunning = true) := by
  have hnew : NewUnifiedCacheManager config =
      { integratedWarmer := none
        legacyWarmer := some (NewCacheWarmer config.Strategy)
        useIntegrated := false } := by
    simp [NewUnifiedCacheManager, h]
  refine ⟨by rw [hnew]; rfl, by rw [hnew], rfl, ?_⟩
  intro ucm w hui hlw
  rcases ucm with ⟨iw, lw, ui⟩
  subst hui
  simp only at hlw
  subst hlw
  rfl

theorem claim_C10_witness :
    (determineMode ⟨.auto, none, ⟨10, 3, 300, true, true⟩⟩ = .legacy)
    ∧ ((NewUnifiedCacheManager ⟨.auto, none, ⟨10, 3, 300, true, true⟩⟩).IsRunning = true
      ∧ (NewUnifiedCacheManager ⟨.auto, none, ⟨10, 3, 300, true, true⟩⟩).legacyWarmer
          = some (NewCacheWarmer ⟨10, 3, 300, true, true⟩)
      ∧ (NewCacheWarmer (⟨10, 3, 300, true, true⟩ : WarmupStrategy)).running = false
      ∧ (∀ ucm : UnifiedCacheManager, ∀ w : CacheWarmer, ucm.useIntegrated = false →
          ucm.legacyWarmer = some w → ucm.IsRunning = true)) :=
  ⟨rfl, claim_C10 ⟨.auto, none, ⟨10, 3, 300, true, true⟩⟩ rfl⟩
